import Mathlib

/-!
Verification of the `safety` fake microVM gRPC server (package `safety`,
file `safety.go`) against its natural-language specification.

The server state is the slice `savedSpecs []*types.MicroVMSpec`.  We embed
the fields of `types.MicroVMSpec` that the code reads (`Id`, `Namespace`,
`Uid`) plus an opaque `Payload` standing for the rest of the caller-supplied
specification, which the code passes through unmodified.  `Uid` is a Go
`*string`, so it is embedded as `Option String`; dereferencing a nil
pointer is a runtime panic, which the embedding surfaces as `Option.none`
at the operation level.  The optional request field `Name` of
`ListMicroVMsRequest` is likewise a `*string`, embedded as `Option String`.
External effects the code performs (`fmt.Println` logging) have no bearing
on results or state and are dropped.  `uuid.NewV4()` is an external source
of randomness; `CreateMicroVM` takes its outcome as an explicit
`Except ε String` argument.
-/

namespace Safety

/-- Embedding of the fields of `types.MicroVMSpec` used by `safety.go`:
`Id`, `Namespace` and the pointer field `Uid`; `Payload` stands for the
remaining caller-supplied specification data, passed through unmodified. -/
structure MicroVMSpec where
  Id : String
  Namespace : String
  Uid : Option String
  Payload : String
  deriving DecidableEq, Repr

instance : Inhabited MicroVMSpec := ⟨⟨"", "", none, ""⟩⟩

/-- The states of the `types.MicroVMStatus` enum the server ever produces:
`pending` is the enum's zero value (what an empty `&types.MicroVMStatus{}`
carries) and `created` is `types.MicroVMStatus_CREATED`. -/
inductive MicroVMState where
  | pending
  | created
  deriving DecidableEq, Repr

/-- Embedding of `types.MicroVMStatus`: just its `State` field. -/
structure MicroVMStatus where
  State : MicroVMState
  deriving DecidableEq, Repr

/-- Embedding of `types.MicroVM` as built by the handlers: a version
counter, the stored spec and a status. -/
structure MicroVM where
  Version : Int
  Spec : MicroVMSpec
  Status : MicroVMStatus
  deriving DecidableEq, Repr

/-- Embedding of `mvmv1.CreateMicroVMResponse`. -/
structure CreateMicroVMResponse where
  Microvm : MicroVM
  deriving DecidableEq, Repr

/-- Embedding of `mvmv1.GetMicroVMResponse`. -/
structure GetMicroVMResponse where
  Microvm : MicroVM
  deriving DecidableEq, Repr

/-- Embedding of `mvmv1.ListMicroVMsResponse`. -/
structure ListMicroVMsResponse where
  Microvm : List MicroVM
  deriving DecidableEq, Repr

/-- Embedding of `CreateMicroVM` (safety.go lines 105-129).  The outcome of
the external call `uuid.NewV4()` is the argument `genResult`: `Except.ok u`
when identifier generation yields the string `u`, `Except.error e` when it
fails.  On success the handler sets `spec.Uid`, appends the spec to
`savedSpecs` and answers with version `0` and an empty status; on failure
it returns the generation error as-is and the state is untouched. -/
def CreateMicroVM {ε : Type} (specs : List MicroVMSpec) (reqMicrovm : MicroVMSpec)
    (genResult : Except ε String) :
    Except ε (List MicroVMSpec × CreateMicroVMResponse) :=
  match genResult with
  | Except.error e => Except.error e
  | Except.ok u =>
    let spec := { reqMicrovm with Uid := some u }
    Except.ok (specs ++ [spec], ⟨⟨0, spec, ⟨MicroVMState.pending⟩⟩⟩)

/-- One iteration of the loop in `DeleteMicroVM` (safety.go lines 133-138)
at index `i`: read `savedSpecs[i]`, dereference its `Uid` (`none` embeds
the nil-pointer panic of `*spec.Uid`), and when it equals the requested
uid overwrite slot `i` with the slice's current last element. -/
def deleteStep (uid : String) (acc : List MicroVMSpec) (i : Nat) :
    Option (List MicroVMSpec) :=
  match acc[i]? with
  | none => some acc
  | some s =>
    match s.Uid with
    | none => none
    | some su => some (if su = uid then acc.set i (acc.getLastD default) else acc)

/-- The whole `for i, spec := range s.savedSpecs` loop of `DeleteMicroVM`:
the iteration count is the slice's length at entry (the loop body never
changes the length). -/
def deleteLoop (uid : String) (specs : List MicroVMSpec) :
    Option (List MicroVMSpec) :=
  List.foldlM (deleteStep uid) specs (List.range specs.length)

/-- Embedding of `DeleteMicroVM` (safety.go lines 131-144).  When the
collection is non-empty it runs the matching loop and then drops the last
element — note that in the source the truncation
`s.savedSpecs = s.savedSpecs[:len(s.savedSpecs)-1]` sits outside the
matching loop and runs unconditionally.  The handler always answers
`&emptypb.Empty{}` with a nil error, so the returned value is just the new
collection; `none` embeds a nil-pointer panic on some stored `Uid`. -/
def DeleteMicroVM (specs : List MicroVMSpec) (uid : String) :
    Option (List MicroVMSpec) :=
  if specs.length > 0 then
    (deleteLoop uid specs).map (fun l => l.dropLast)
  else
    some specs

/-- The scan loop of `GetMicroVM` (safety.go lines 149-153): walk the
collection, keeping the last spec whose dereferenced `Uid` equals the
requested uid (`requestSpec` keeps being overwritten, there is no break);
`none` embeds the nil-pointer panic of `*spec.Uid`. -/
def getScan (uid : String) : List MicroVMSpec → Option MicroVMSpec →
    Option (Option MicroVMSpec)
  | [], acc => some acc
  | s :: rest, acc =>
    match s.Uid with
    | none => none
    | some su => getScan uid rest (if su = uid then some s else acc)

/-- Embedding of `GetMicroVM` (safety.go lines 146-170): after the scan,
a nil `requestSpec` yields the error `rpc error: microvm not found`;
otherwise the found spec is returned with version `0` and state CREATED. -/
def GetMicroVM (specs : List MicroVMSpec) (uid : String) :
    Option (Except String GetMicroVMResponse) :=
  match getScan uid specs none with
  | none => none
  | some none => some (Except.error "rpc error: microvm not found")
  | some (some s) =>
    some (Except.ok ⟨⟨0, s, ⟨MicroVMState.created⟩⟩⟩)

/-- Embedding of `shouldReturn` (safety.go lines 196-206), with Go's
short-circuit `&&`: `*name` is dereferenced only when the conjunct
`spec.Namespace == namespace` before it is true, and a nil `name` there is
a panic (`none`).  Otherwise the function returns
`spec.Id == *name` / `*name == ""` / `namespace == ""` exactly as the
three-way policy in the source. -/
def shouldReturn (spec : MicroVMSpec) (name : Option String) (ns : String) :
    Option Bool :=
  if spec.Namespace = ns then
    match name with
    | none => none
    | some n =>
      if spec.Id = n then some true
      else if n = "" then some true
      else some (ns = "")
  else
    some (ns = "")

/-- Annotation applied by `ListMicroVMs` to each matching spec
(safety.go lines 180-186): version `0` and state CREATED. -/
def toCreated (s : MicroVMSpec) : MicroVM :=
  ⟨0, s, ⟨MicroVMState.created⟩⟩

/-- The filter loop of `ListMicroVMs` (safety.go lines 178-189): appends
the CREATED-annotated record for every spec `shouldReturn` accepts, in
collection order; a panic inside `shouldReturn` aborts the call (`none`). -/
def listScan (name : Option String) (ns : String) :
    List MicroVMSpec → Option (List MicroVM)
  | [] => some []
  | s :: rest =>
    match shouldReturn s name ns with
    | none => none
    | some b =>
      match listScan name ns rest with
      | none => none
      | some ms => some (if b then toCreated s :: ms else ms)

/-- Embedding of `ListMicroVMs` (safety.go lines 172-194). -/
def ListMicroVMs (specs : List MicroVMSpec) (name : Option String) (ns : String) :
    Option ListMicroVMsResponse :=
  (listScan name ns specs).map ListMicroVMsResponse.mk

/-! ### Auth gate

`basicAuthFunc` (safety.go lines 233-246) extracts the `basic`-scheme
credential from the call metadata via `grpc_auth.AuthFromMD` — embedded as
an `Option String` argument, `none` when the field is absent — and checks
it with `validateBasicAuthToken` (lines 248-256), which base64-encodes the
server's configured secret (`base64.StdEncoding.EncodeToString`) and
compares the client string byte for byte; the client value is never
decoded. -/

/-- UTF-8 encoding of one Unicode code point `c` (given as its `Nat`
value) as the list of its byte values, as Go produces when converting a
`string` to `[]byte`. -/
def utf8Bytes (c : Nat) : List Nat :=
  if c < 0x80 then [c]
  else if c < 0x800 then [0xC0 + c / 64, 0x80 + c % 64]
  else if c < 0x10000 then
    [0xE0 + c / 4096, 0x80 + c / 64 % 64, 0x80 + c % 64]
  else
    [0xF0 + c / 262144, 0x80 + c / 4096 % 64, 0x80 + c / 64 % 64, 0x80 + c % 64]

/-- The byte values of a Go string (UTF-8). -/
def strBytes (s : String) : List Nat :=
  (s.data.map (fun c => utf8Bytes c.toNat)).flatten

/-- The standard base64 alphabet (RFC 4648), as used by
`base64.StdEncoding`. -/
def b64Alphabet : List Char :=
  "ABCDEFGHIJKLMNOPQRSTUVWXYZabcdefghijklmnopqrstuvwxyz0123456789+/".data

/-- The base64 digit for a 6-bit value. -/
def b64Char (n : Nat) : Char :=
  b64Alphabet.getD n 'A'

/-- Standard base64 encoding with `=` padding of a byte list
(`base64.StdEncoding.EncodeToString`). -/
def base64Encode : List Nat → List Char
  | [] => []
  | [b1] => [b64Char (b1 / 4), b64Char (b1 % 4 * 16), '=', '=']
  | [b1, b2] =>
    [b64Char (b1 / 4), b64Char (b1 % 4 * 16 + b2 / 16), b64Char (b2 % 16 * 4), '=']
  | b1 :: b2 :: b3 :: rest =>
    b64Char (b1 / 4) :: b64Char (b1 % 4 * 16 + b2 / 16) ::
      b64Char (b2 % 16 * 4 + b3 / 64) :: b64Char (b3 % 64) :: base64Encode rest

/-- `base64.StdEncoding.EncodeToString([]byte(s))`. -/
def encodeToString (s : String) : String :=
  ⟨base64Encode (strBytes s)⟩

/-- Embedding of `validateBasicAuthToken` (safety.go lines 248-256):
base64-encode the server token and compare the client token against it
(`strings.Compare(...) != 0` is string inequality). -/
def validateBasicAuthToken (clientToken serverToken : String) :
    Except String Unit :=
  if clientToken = encodeToString serverToken then Except.ok ()
  else Except.error "tokens do not match"

/-- The two error shapes `basicAuthFunc` produces: the wrapped
`grpc_auth.AuthFromMD` failure and the `codes.Unauthenticated` status. -/
inductive AuthError where
  | metadataExtraction (msg : String)
  | unauthenticated (msg : String)
  deriving DecidableEq, Repr

/-- Embedding of the closure returned by `basicAuthFunc` (safety.go lines
233-246) over an arbitrary context type: `cred` is what
`grpc_auth.AuthFromMD(ctx, "basic")` yields (`none` = extraction error);
on success the incoming context is returned unmodified. -/
def basicAuthFunc {α : Type} (setServerToken : String) (ctx : α)
    (cred : Option String) : Except AuthError α :=
  match cred with
  | none =>
    Except.error (AuthError.metadataExtraction
      "could not extract token from request header")
  | some token =>
    match validateBasicAuthToken token setServerToken with
    | Except.error e =>
      Except.error (AuthError.unauthenticated ("invalid auth token: " ++ e))
    | Except.ok _ => Except.ok ctx

/-! ### Derived notions and concrete records used in the statements -/

/-- The Boolean value of the three-way filter policy of `shouldReturn` when
the request's `Name` pointer is present (no panic is possible then): the
record matches when its namespace equals the requested one and its id
equals the requested name or the requested name is empty, or when the
requested namespace is empty. -/
def matchesB (s : MicroVMSpec) (n : String) (ns : String) : Bool :=
  (s.Namespace == ns && (s.Id == n || n == "")) || ns == ""

/-- The overwrite the delete loop applies to a slot holding `s`: a match is
replaced by the collection's last element, anything else is kept. -/
def swapF (uid : String) (L : List MicroVMSpec) (s : MicroVMSpec) : MicroVMSpec :=
  if s.Uid = some uid then L.getLastD default else s

/-- The collection as it stands once the delete loop has processed the
first `k` slots: those slots carry the swap result, the rest is still the
original collection (the loop at step `i` writes slot `i` only, and the
last slot keeps its original value until the loop ends). -/
def deleteInv (uid : String) (L : List MicroVMSpec) (k : Nat) : List MicroVMSpec :=
  (L.take k).map (swapF uid L) ++ L.drop k

/-- A record with uid `u1`, used as a concrete input. -/
def exSpec1 : MicroVMSpec := ⟨"vm1", "ns1", some "u1", "payload"⟩

/-- A second record sharing uid `u1` with `exSpec1`. -/
def dupSpecB : MicroVMSpec := ⟨"vm2", "ns1", some "u1", "other"⟩

/-- A record with uid `u2`, distinct from `exSpec1`'s. -/
def exSpec2 : MicroVMSpec := ⟨"vm2", "ns2", some "u2", "other"⟩

/-- A record whose namespace is the empty string. -/
def emptyNsSpec : MicroVMSpec := ⟨"vm1", "", some "u1", "payload"⟩

end Safety

namespace Safety

/-! ### Lemmas about the List filter policy -/

/-- With the name pointer present, `shouldReturn` never panics and computes
the Boolean `matchesB`. -/
theorem shouldReturn_some (s : MicroVMSpec) (n ns : String) :
    shouldReturn s (some n) ns = some (matchesB s n ns) := by
  unfold shouldReturn matchesB
  by_cases h1 : s.Namespace = ns
  · by_cases h2 : s.Id = n
    · simp [h1, h2]
    · by_cases h3 : n = ""
      · simp [h1, h2, h3]
      · by_cases h4 : ns = "" <;> simp [h1, h2, h3, h4]
  · by_cases h4 : ns = "" <;> simp [h1, h4]

/-- With the name pointer present, the List scan filters by `matchesB` and
annotates each kept record with CREATED, in collection order. -/
theorem listScan_some_name (n ns : String) (L : List MicroVMSpec) :
    listScan (some n) ns L =
      some ((L.filter (fun s => matchesB s n ns)).map toCreated) := by
  induction L with
  | nil => rfl
  | cons s rest ih =>
    simp only [listScan, shouldReturn_some, ih]
    by_cases hb : matchesB s n ns <;> simp [hb]

/-- With a nil name pointer, the List scan panics exactly when some stored
record's namespace equals the requested one. -/
theorem listScan_none_eq_none_iff (ns : String) (L : List MicroVMSpec) :
    listScan none ns L = none ↔ ∃ s ∈ L, s.Namespace = ns := by
  induction L with
  | nil => simp [listScan]
  | cons s rest ih =>
    by_cases h : s.Namespace = ns
    · simp [listScan, shouldReturn, h]
    · have hs : shouldReturn s none ns = some (decide (ns = "")) := by
        simp [shouldReturn, h]
      cases hrec : listScan none ns rest with
      | none =>
        have hex : ∃ s ∈ rest, s.Namespace = ns := ih.mp hrec
        simp only [listScan, hs, hrec]
        exact iff_of_true (by simp) (by
          obtain ⟨x, hx, hxn⟩ := hex
          exact ⟨x, List.mem_cons_of_mem s hx, hxn⟩)
      | some ms =>
        have hnone : ¬ ∃ s ∈ rest, s.Namespace = ns := fun hx => by
          rw [ih.mpr hx] at hrec; exact Option.noConfusion hrec
        simp only [listScan, hs, hrec]
        refine iff_of_false (by simp) ?_
        rintro ⟨x, hx, hxn⟩
        rcases List.mem_cons.mp hx with rfl | hx'
        · exact h hxn
        · exact hnone ⟨x, hx', hxn⟩

/-! ### The delete loop in closed form -/

/-- Appending to the left does not change the last element (with default)
when the right part is non-empty. -/
theorem getLastD_append_right (l r : List MicroVMSpec) (d : MicroVMSpec)
    (h : r ≠ []) : (l ++ r).getLastD d = r.getLastD d := by
  rcases List.eq_nil_or_concat r with rfl | ⟨B, z, rfl⟩
  · exact absurd rfl h
  · rw [List.concat_eq_append, ← List.append_assoc, List.getLastD_concat,
      List.getLastD_concat]

/-- One step of the delete loop takes the invariant from `k` to `k + 1`:
slot `k` still holds the original record, the slice's last slot still holds
the original last record, and the slot is overwritten exactly on a match. -/
theorem deleteStep_inv (uid : String) (L : List MicroVMSpec) (k : Nat)
    (hk : k < L.length) (hu : ∀ s ∈ L, s.Uid.isSome) :
    deleteStep uid (deleteInv uid L k) k = some (deleteInv uid L (k + 1)) := by
  have hlen : ((L.take k).map (swapF uid L)).length = k := by
    simp [List.length_take, Nat.min_eq_left (Nat.le_of_lt hk)]
  have hget : (deleteInv uid L k)[k]? = some L[k] := by
    rw [deleteInv, List.getElem?_append_right (by omega), hlen, Nat.sub_self]
    rw [show (L.drop k)[0]? = L[k + 0]? from List.getElem?_drop L k 0]
    simp [List.getElem?_eq_getElem hk]
  obtain ⟨su, hsu⟩ := Option.isSome_iff_exists.mp (hu L[k] (List.getElem_mem hk))
  have hdropk : L.drop k = L[k] :: L.drop (k + 1) := List.drop_eq_getElem_cons hk
  have htake : deleteInv uid L (k + 1) =
      (L.take k).map (swapF uid L) ++ swapF uid L L[k] :: L.drop (k + 1) := by
    rw [deleteInv, List.take_succ, List.getElem?_eq_getElem hk, Option.toList_some,
      List.map_append, List.map_singleton, List.append_assoc, List.singleton_append]
  rw [deleteStep, hget]
  simp only [hsu]
  by_cases h : su = uid
  · rw [if_pos h]
    have hlast : (deleteInv uid L k).getLastD default = L.getLastD default := by
      rw [deleteInv, getLastD_append_right _ _ _
        (by rw [Ne, List.drop_eq_nil_iff]; omega)]
      conv_rhs => rw [← List.take_append_drop k L]
      rw [getLastD_append_right _ _ _ (by rw [Ne, List.drop_eq_nil_iff]; omega)]
    have hswap : swapF uid L L[k] = L.getLastD default := by
      rw [swapF, if_pos (by rw [hsu, h])]
    have hset : (deleteInv uid L k).set k (L.getLastD default) =
        (L.take k).map (swapF uid L) ++ L.getLastD default :: L.drop (k + 1) := by
      rw [deleteInv, List.set_append, if_neg (by omega), hlen, Nat.sub_self,
        hdropk, List.set_cons_zero]
    rw [hlast, hset, htake, hswap]
  · rw [if_neg h]
    have hswap : swapF uid L L[k] = L[k] := by
      rw [swapF, if_neg (by rw [hsu]; exact fun hc => h (Option.some.inj hc))]
    rw [htake, hswap, deleteInv, hdropk]

/-- After `k` iterations the delete loop has produced exactly the
invariant list. -/
theorem deleteLoop_inv (uid : String) (L : List MicroVMSpec)
    (hu : ∀ s ∈ L, s.Uid.isSome) (k : Nat) (hk : k ≤ L.length) :
    List.foldlM (deleteStep uid) L (List.range k) = some (deleteInv uid L k) := by
  induction k with
  | zero => simp [deleteInv]
  | succ k ih =>
    rw [List.range_succ, List.foldlM_append, ih (Nat.le_of_succ_le hk)]
    simp [List.foldlM, deleteStep_inv uid L k (Nat.lt_of_succ_le hk) hu]

/-- The whole delete loop, in closed form: every matching slot is
overwritten with the collection's original last element, everything else is
untouched. -/
theorem deleteLoop_closed (uid : String) (L : List MicroVMSpec)
    (hu : ∀ s ∈ L, s.Uid.isSome) :
    deleteLoop uid L = some (L.map (swapF uid L)) := by
  have h := deleteLoop_inv uid L hu L.length le_rfl
  rw [deleteLoop, h, deleteInv, List.take_length, List.drop_length,
    List.append_nil]

/-- `DeleteMicroVM`, in closed form: swap every matching slot with the
original last element, then unconditionally drop the last slot. -/
theorem deleteMicroVM_closed_form (L : List MicroVMSpec) (uid : String)
    (hu : ∀ s ∈ L, s.Uid.isSome) :
    DeleteMicroVM L uid = some ((L.map (swapF uid L)).dropLast) := by
  rw [DeleteMicroVM]
  by_cases h : L.length > 0
  · rw [if_pos h, deleteLoop_closed uid L hu]
    rfl
  · rw [if_neg h]
    have : L = [] := List.eq_nil_of_length_eq_zero (by omega)
    subst this
    rfl

/-! ### Lemmas about the Get scan -/

/-- The Get scan walks an appended collection left part first, threading
the accumulator (or propagating a panic). -/
theorem getScan_append (uid : String) (L₁ L₂ : List MicroVMSpec)
    (acc : Option MicroVMSpec) :
    getScan uid (L₁ ++ L₂) acc =
      (getScan uid L₁ acc).bind (fun acc' => getScan uid L₂ acc') := by
  induction L₁ generalizing acc with
  | nil => simp [getScan]
  | cons s rest ih =>
    cases hs : s.Uid with
    | none => simp [getScan, hs]
    | some su => simp [getScan, hs, ih]

/-- The Get scan never panics when every stored record's uid pointer is
non-nil. -/
theorem getScan_total (uid : String) (L : List MicroVMSpec)
    (hu : ∀ s ∈ L, s.Uid.isSome) (acc : Option MicroVMSpec) :
    ∃ r, getScan uid L acc = some r := by
  induction L generalizing acc with
  | nil => exact ⟨acc, rfl⟩
  | cons s rest ih =>
    obtain ⟨su, hsu⟩ := Option.isSome_iff_exists.mp (hu s (by simp))
    obtain ⟨r, hr⟩ := ih (fun x hx => hu x (List.mem_cons_of_mem _ hx))
      (if su = uid then some s else acc)
    exact ⟨r, by rw [getScan, hsu]; exact hr⟩

/-- The Get scan leaves the accumulator alone when no stored record's uid
matches (and none is nil). -/
theorem getScan_no_match (uid : String) (L : List MicroVMSpec)
    (h : ∀ s ∈ L, s.Uid.isSome ∧ s.Uid ≠ some uid) (acc : Option MicroVMSpec) :
    getScan uid L acc = some acc := by
  induction L with
  | nil => rfl
  | cons s rest ih =>
    obtain ⟨hsome, hne⟩ := h s (by simp)
    obtain ⟨su, hsu⟩ := Option.isSome_iff_exists.mp hsome
    have : su ≠ uid := fun hc => hne (by rw [hsu, hc])
    rw [getScan, hsu]
    show getScan uid rest (if su = uid then some s else acc) = some acc
    rw [if_neg this]
    exact ih (fun x hx => h x (List.mem_cons_of_mem _ hx))

/-- Every record a List response carries was stored in the collection. -/
theorem listScan_spec_mem (name : Option String) (ns : String)
    (L : List MicroVMSpec) (ms : List MicroVM)
    (h : listScan name ns L = some ms) : ∀ m ∈ ms, m.Spec ∈ L := by
  induction L generalizing ms with
  | nil =>
    cases h
    simp
  | cons s rest ih =>
    rw [listScan] at h
    cases hsr : shouldReturn s name ns with
    | none => rw [hsr] at h; exact absurd h (by simp)
    | some b =>
      rw [hsr] at h
      cases hrec : listScan name ns rest with
      | none => rw [hrec] at h; exact absurd h (by simp)
      | some ms' =>
        rw [hrec] at h
        have hms : ms = if b then toCreated s :: ms' else ms' := by
          cases h; rfl
        intro m hm
        by_cases hb : b
        · rw [hms, if_pos hb] at hm
          rcases List.mem_cons.mp hm with rfl | hm'
          · exact List.mem_cons_self _ _
          · exact List.mem_cons_of_mem _ (ih ms' hrec m hm')
        · rw [hms, if_neg hb] at hm
          exact List.mem_cons_of_mem _ (ih ms' hrec m hm)

/-! ### Claim theorems: Delete in general and Create/Get round trip -/

/-- C2 (amended): when two or more stored records share uid `u` (and all
uid pointers are non-nil), Delete(u) overwrites every matching slot with
the collection's pre-call last element, inside the loop, but the shrink
happens only once, after the loop: the resulting collection is the
overwritten collection minus its last slot, and its length has decreased by
exactly one, not by the number of matches. -/
theorem deleteMicroVM_duplicate_uid_amended (L : List MicroVMSpec) (u : String)
    (hu : ∀ s ∈ L, s.Uid.isSome)
    (h2 : 2 ≤ (L.filter (fun s => s.Uid == some u)).length) :
    DeleteMicroVM L u = some ((L.map (swapF u L)).dropLast) ∧
    ((L.map (swapF u L)).dropLast).length + 1 = L.length := by
  have hne : L ≠ [] := by
    intro h
    subst h
    simp at h2
  have hpos : 0 < L.length := List.length_pos.mpr hne
  refine ⟨deleteMicroVM_closed_form L u hu, ?_⟩
  rw [List.length_dropLast, List.length_map]
  omega

/-- C2 amended witness: the two-record collection sharing uid `u1`. -/
theorem deleteMicroVM_duplicate_uid_amended_witness :
    (∀ s ∈ [exSpec1, dupSpecB], s.Uid.isSome) ∧
    2 ≤ ([exSpec1, dupSpecB].filter (fun s => s.Uid == some "u1")).length ∧
    (DeleteMicroVM [exSpec1, dupSpecB] "u1" =
      some (([exSpec1, dupSpecB].map (swapF "u1" [exSpec1, dupSpecB])).dropLast) ∧
    (([exSpec1, dupSpecB].map (swapF "u1" [exSpec1, dupSpecB])).dropLast).length
      + 1 = ([exSpec1, dupSpecB] : List MicroVMSpec).length) :=
  ⟨by decide, by decide,
    deleteMicroVM_duplicate_uid_amended [exSpec1, dupSpecB] "u1"
      (by decide) (by decide)⟩

/-- A list whose filtering yields exactly one element splits around that
element, the two sides containing no further matches. -/
theorem filter_singleton_split {α : Type} (p : α → Bool) (L : List α) (r : α)
    (h : L.filter p = [r]) :
    ∃ A B, L = A ++ r :: B ∧ (∀ x ∈ A, ¬ p x) ∧ (∀ x ∈ B, ¬ p x) ∧ p r := by
  induction L with
  | nil => simp at h
  | cons s rest ih =>
    rw [List.filter_cons] at h
    by_cases hs : p s
    · rw [if_pos hs] at h
      injection h with h1 h2
      subst h1
      exact ⟨[], rest, rfl, by simp,
        fun x hx => by simpa using List.filter_eq_nil_iff.mp h2 x hx, hs⟩
    · rw [if_neg hs] at h
      obtain ⟨A, B, rfl, hA, hB, hr⟩ := ih h
      refine ⟨s :: A, B, rfl, ?_, hB, hr⟩
      intro x hx
      rcases List.mem_cons.mp hx with rfl | hx'
      · exact hs
      · exact hA x hx'

/-- When no record of a collection carries uid `u` (and no uid pointer is
nil), Get(u) fails with the not-found error and no List response over that
collection carries a record with uid `u`. -/
theorem delete_result_props (R : List MicroVMSpec) (u : String)
    (hmem : ∀ x ∈ R, x.Uid.isSome ∧ x.Uid ≠ some u) :
    GetMicroVM R u = some (Except.error "rpc error: microvm not found") ∧
    ∀ name ns resp, ListMicroVMs R name ns = some resp →
      ∀ m ∈ resp.Microvm, m.Spec.Uid ≠ some u := by
  constructor
  · rw [GetMicroVM, getScan_no_match u R hmem]
  · intro name ns resp hresp m hm
    rw [ListMicroVMs] at hresp
    obtain ⟨ms, hms, hmk⟩ := Option.map_eq_some'.mp hresp
    subst hmk
    exact (hmem _ (listScan_spec_mem name ns R ms hms m hm)).2

/-- C5: when exactly one stored record carries uid `u` (and all uid
pointers are non-nil), Delete(u) succeeds, the surviving collection is a
permutation of the other records (ordering is not preserved), a subsequent
Get(u) fails with the not-found error, and `u` appears in no subsequent
List result. -/
theorem delete_existing_uid_removes (L : List MicroVMSpec) (u : String)
    (hu : ∀ s ∈ L, s.Uid.isSome)
    (h1 : (L.filter (fun s => s.Uid == some u)).length = 1) :
    ∃ l, DeleteMicroVM L u = some l ∧
      l.Perm (L.filter (fun s => !(s.Uid == some u))) ∧
      GetMicroVM l u = some (Except.error "rpc error: microvm not found") ∧
      ∀ name ns resp, ListMicroVMs l name ns = some resp →
        ∀ m ∈ resp.Microvm, m.Spec.Uid ≠ some u := by
  obtain ⟨r, hfil⟩ := List.length_eq_one.mp h1
  obtain ⟨A, B, rfl, hA, hB, hr⟩ :=
    filter_singleton_split (fun s => s.Uid == some u) L r hfil
  have hrU : r.Uid = some u := by simpa using hr
  have hA' : ∀ x ∈ A, x.Uid ≠ some u := fun x hx => by simpa using hA x hx
  have hB' : ∀ x ∈ B, x.Uid ≠ some u := fun x hx => by simpa using hB x hx
  have htarget : (A ++ r :: B).filter (fun s => !(s.Uid == some u)) = A ++ B := by
    rw [List.filter_append, List.filter_cons,
      if_neg (by simp [hrU]),
      List.filter_eq_self.mpr (fun a ha => by simp [hA' a ha]),
      List.filter_eq_self.mpr (fun a ha => by simp [hB' a ha])]
  have hmemAB : ∀ x ∈ A ++ B, x.Uid.isSome ∧ x.Uid ≠ some u := by
    intro x hx
    rcases List.mem_append.mp hx with h | h
    · exact ⟨hu x (List.mem_append.mpr (Or.inl h)), hA' x h⟩
    · exact ⟨hu x (List.mem_append.mpr (Or.inr (List.mem_cons_of_mem _ h))),
        hB' x h⟩
  have hclosed := deleteMicroVM_closed_form (A ++ r :: B) u hu
  rcases List.eq_nil_or_concat B with rfl | ⟨B', z, rfl⟩
  · -- the matching record is the last element: the swap is the identity
    -- and the truncation removes exactly it
    have hmapA : A.map (swapF u (A ++ [r])) = A := by
      rw [List.map_congr_left
        (fun a ha => by rw [swapF, if_neg (hA' a ha)]; rfl : ∀ a ∈ A,
          swapF u (A ++ [r]) a = id a), List.map_id]
    have hR : ((A ++ [r]).map (swapF u (A ++ [r]))).dropLast = A := by
      rw [List.map_append, List.map_singleton, List.dropLast_concat, hmapA]
    rw [hR] at hclosed
    refine ⟨A, hclosed, ?_, ?_, ?_⟩
    · rw [htarget, List.append_nil]
    · exact (delete_result_props A u
        (fun x hx => hmemAB x (by simpa using hx))).1
    · exact (delete_result_props A u
        (fun x hx => hmemAB x (by simpa using hx))).2
  · -- the matching record sits before the last element `z`: its slot is
    -- overwritten with `z` and the truncation removes the original `z`
    rw [List.concat_eq_append] at *
    have hz : z.Uid ≠ some u := hB' z (by simp)
    have hassoc : A ++ r :: (B' ++ [z]) = (A ++ r :: B') ++ [z] := by simp
    have hlastz : (A ++ r :: (B' ++ [z])).getLastD default = z := by
      rw [hassoc, List.getLastD_concat]
    have hfr : swapF u (A ++ r :: (B' ++ [z])) r = z := by
      rw [swapF, if_pos hrU, hlastz]
    have hfz : swapF u (A ++ r :: (B' ++ [z])) z = z := by
      rw [swapF, if_neg hz]
    have hmapA : A.map (swapF u (A ++ r :: (B' ++ [z]))) = A := by
      rw [List.map_congr_left
        (fun a ha => by rw [swapF, if_neg (hA' a ha)]; rfl : ∀ a ∈ A,
          swapF u (A ++ r :: (B' ++ [z])) a = id a), List.map_id]
    have hmapB : B'.map (swapF u (A ++ r :: (B' ++ [z]))) = B' := by
      rw [List.map_congr_left
        (fun a ha => by
          rw [swapF, if_neg (hB' a (List.mem_append.mpr (Or.inl ha)))]; rfl :
          ∀ a ∈ B', swapF u (A ++ r :: (B' ++ [z])) a = id a), List.map_id]
    have hmap : (A ++ r :: (B' ++ [z])).map (swapF u (A ++ r :: (B' ++ [z]))) =
        (A ++ z :: B') ++ [z] := by
      rw [List.map_append, List.map_cons, List.map_append, List.map_singleton,
        hfr, hfz, hmapA, hmapB]
      simp
    have hR : ((A ++ r :: (B' ++ [z])).map
        (swapF u (A ++ r :: (B' ++ [z])))).dropLast = A ++ z :: B' := by
      rw [hmap, List.dropLast_concat]
    rw [hR] at hclosed
    have hperm : (A ++ z :: B').Perm (A ++ (B' ++ [z])) :=
      List.Perm.append_left A
        (by rw [← List.singleton_append]; exact List.perm_append_comm)
    have hmemR : ∀ x ∈ A ++ z :: B', x.Uid.isSome ∧ x.Uid ≠ some u := by
      intro x hx
      exact hmemAB x (hperm.mem_iff.mp hx)
    refine ⟨A ++ z :: B', hclosed, ?_, (delete_result_props _ u hmemR).1,
      (delete_result_props _ u hmemR).2⟩
    rw [htarget]
    exact hperm

/-- C5 witness: two records with distinct uids; deleting `u1` keeps only
the record with uid `u2`. -/
theorem delete_existing_uid_removes_witness :
    (∀ s ∈ [exSpec1, exSpec2], s.Uid.isSome) ∧
    ([exSpec1, exSpec2].filter (fun s => s.Uid == some "u1")).length = 1 ∧
    ∃ l, DeleteMicroVM [exSpec1, exSpec2] "u1" = some l ∧
      l.Perm ([exSpec1, exSpec2].filter (fun s => !(s.Uid == some "u1"))) ∧
      GetMicroVM l "u1" = some (Except.error "rpc error: microvm not found") ∧
      ∀ name ns resp, ListMicroVMs l name ns = some resp →
        ∀ m ∈ resp.Microvm, m.Spec.Uid ≠ some "u1" :=
  ⟨by decide, by decide,
    delete_existing_uid_removes [exSpec1, exSpec2] "u1" (by decide) (by decide)⟩

/-- C4: if Create succeeds with fresh uid `u` on a collection of records
with non-nil uid pointers, the immediately following Get(u) succeeds and
returns exactly the spec payload Create stored (the request's spec with
uid `u` attached), annotated with version 0 and status CREATED. -/
theorem create_then_get_roundtrip (specs : List MicroVMSpec) (req : MicroVMSpec)
    (u : String) (hu : ∀ s ∈ specs, s.Uid.isSome) :
    ∃ l resp,
      CreateMicroVM specs req (Except.ok u : Except String String) =
        Except.ok (l, resp) ∧
      resp.Microvm.Spec = ⟨req.Id, req.Namespace, some u, req.Payload⟩ ∧
      GetMicroVM l u =
        some (Except.ok ⟨⟨0, resp.Microvm.Spec, ⟨MicroVMState.created⟩⟩⟩) := by
  refine ⟨specs ++ [⟨req.Id, req.Namespace, some u, req.Payload⟩],
    ⟨⟨0, ⟨req.Id, req.Namespace, some u, req.Payload⟩, ⟨MicroVMState.pending⟩⟩⟩,
    ?_, rfl, ?_⟩
  · rfl
  rw [GetMicroVM, getScan_append]
  obtain ⟨r, hr⟩ := getScan_total u specs hu none
  rw [hr]
  simp [getScan]

/-- C4 witness: create on a one-record collection, then get the fresh
uid `u9`. -/
theorem create_then_get_roundtrip_witness :
    (∀ s ∈ [exSpec2], s.Uid.isSome) ∧
    ∃ l resp,
      CreateMicroVM [exSpec2] exSpec1 (Except.ok "u9" : Except String String) =
        Except.ok (l, resp) ∧
      resp.Microvm.Spec = ⟨exSpec1.Id, exSpec1.Namespace, some "u9",
        exSpec1.Payload⟩ ∧
      GetMicroVM l "u9" =
        some (Except.ok ⟨⟨0, resp.Microvm.Spec, ⟨MicroVMState.created⟩⟩⟩) :=
  ⟨by decide, create_then_get_roundtrip [exSpec2] exSpec1 "u9" (by decide)⟩

/-! ### Claim theorems: List operation -/

/-- C3 counterexample: with the name pointer absent and a stored record
whose namespace is empty, List with empty namespace panics (nil-pointer
dereference of `*name` inside `shouldReturn`) instead of returning the
stored record, so it does not return every stored record regardless of the
name parameter. -/
theorem listMicroVMs_empty_ns_nil_name_cex :
    ListMicroVMs [emptyNsSpec] none "" = none := by decide

/-- C3 (amended): for every List request whose namespace is empty and whose
name pointer is present, List returns every stored record, regardless of
the name value and of each record's own namespace, each annotated with
status CREATED. -/
theorem listMicroVMs_empty_namespace_returns_all (specs : List MicroVMSpec)
    (n : String) :
    ListMicroVMs specs (some n) "" = some ⟨specs.map toCreated⟩ := by
  rw [ListMicroVMs, listScan_some_name]
  have h : specs.filter (fun s => matchesB s n "") = specs :=
    List.filter_eq_self.mpr (fun s _ => by simp [matchesB])
  rw [h]
  rfl

/-- C6: for a List request with non-empty namespace `ns` and present name:
with empty name it returns exactly the stored records whose namespace
equals `ns`, and with non-empty name `n` exactly those whose namespace
equals `ns` and whose id equals `n` — in both cases annotated CREATED, in
collection order. -/
theorem listMicroVMs_nonempty_namespace (specs : List MicroVMSpec) (ns : String)
    (hns : ns ≠ "") :
    ListMicroVMs specs (some "") ns =
      some ⟨(specs.filter (fun s => s.Namespace == ns)).map toCreated⟩ ∧
    ∀ n : String, n ≠ "" →
      ListMicroVMs specs (some n) ns =
        some ⟨(specs.filter (fun s => s.Namespace == ns && s.Id == n)).map
          toCreated⟩ := by
  constructor
  · rw [ListMicroVMs, listScan_some_name,
      List.filter_congr (fun s _ => by simp [matchesB, hns] :
        ∀ s ∈ specs, matchesB s "" ns = (s.Namespace == ns))]
    rfl
  · intro n hn
    have h1 : (n == "") = false := beq_eq_false_iff_ne.mpr hn
    have h2 : (ns == "") = false := beq_eq_false_iff_ne.mpr hns
    rw [ListMicroVMs, listScan_some_name,
      List.filter_congr (fun s _ => by simp [matchesB, h1, h2] :
        ∀ s ∈ specs, matchesB s n ns = (s.Namespace == ns && s.Id == n))]
    rfl

/-- C6 witness: the two filtering modes evaluated on a concrete
two-record collection with namespace `ns1`. -/
theorem listMicroVMs_nonempty_namespace_witness :
    ("ns1" : String) ≠ "" ∧
    (ListMicroVMs [exSpec1, exSpec2] (some "") "ns1" =
      some ⟨([exSpec1, exSpec2].filter (fun s => s.Namespace == "ns1")).map
        toCreated⟩ ∧
    ∀ n : String, n ≠ "" →
      ListMicroVMs [exSpec1, exSpec2] (some n) "ns1" =
        some ⟨([exSpec1, exSpec2].filter
          (fun s => s.Namespace == "ns1" && s.Id == n)).map toCreated⟩) :=
  ⟨by decide, listMicroVMs_nonempty_namespace [exSpec1, exSpec2] "ns1" (by decide)⟩

/-- C10: with the name pointer absent, List panics exactly when some stored
record's namespace equals the requested namespace (in particular when both
are empty); with the name pointer present (any string, possibly empty) the
filter is total and List always returns a response. -/
theorem listMicroVMs_nil_name_panics (specs : List MicroVMSpec) (ns : String) :
    (ListMicroVMs specs none ns = none ↔ ∃ s ∈ specs, s.Namespace = ns) ∧
    ∀ n : String, ∃ resp, ListMicroVMs specs (some n) ns = some resp := by
  constructor
  · rw [ListMicroVMs, Option.map_eq_none']
    exact listScan_none_eq_none_iff ns specs
  · intro n
    exact ⟨⟨(specs.filter (fun s => matchesB s n ns)).map toCreated⟩,
      by rw [ListMicroVMs, listScan_some_name]; rfl⟩

/-! ### Claim theorems: Create and the auth gate -/

/-- C8: when identifier generation succeeds with `u`, Create attaches `u`
to the request's spec as uid, appends that record at the end of the
collection (all previously stored records unchanged and in place) and
returns the stored record with version counter `0` and an empty status;
when identifier generation fails, Create returns that error unchanged and
the collection is untouched. -/
theorem createMicroVM_appends_or_propagates {ε : Type} (specs : List MicroVMSpec)
    (req : MicroVMSpec) :
    (∀ u : String,
      CreateMicroVM specs req (Except.ok u : Except ε String) =
        Except.ok (specs ++ [⟨req.Id, req.Namespace, some u, req.Payload⟩],
          ⟨⟨0, ⟨req.Id, req.Namespace, some u, req.Payload⟩,
            ⟨MicroVMState.pending⟩⟩⟩)) ∧
    (∀ e : ε, CreateMicroVM specs req (Except.error e) = Except.error e) :=
  ⟨fun _ => rfl, fun _ => rfl⟩

/-- C7: with a non-empty secret configured, the auth gate accepts a call
if and only if the client credential string equals, byte for byte, the
base64 encoding of the configured secret (the client value is never
decoded); any other value fails with an Unauthenticated status, an absent
credential fails with the header-extraction error, and on success the call
context is returned unmodified. -/
theorem basicAuthFunc_accepts_iff_encoded {α : Type} (t : String) (ht : t ≠ "")
    (ctx : α) :
    (∀ c : String, basicAuthFunc t ctx (some c) = Except.ok ctx ↔
      c = encodeToString t) ∧
    (∀ c : String, c ≠ encodeToString t →
      basicAuthFunc t ctx (some c) =
        Except.error (AuthError.unauthenticated
          "invalid auth token: tokens do not match")) ∧
    basicAuthFunc t ctx none =
      Except.error (AuthError.metadataExtraction
        "could not extract token from request header") := by
  refine ⟨fun c => ?_, fun c h => ?_, rfl⟩
  · by_cases h : c = encodeToString t <;>
      simp [basicAuthFunc, validateBasicAuthToken, h]
  · simp [basicAuthFunc, validateBasicAuthToken, h]

/-- C7 witness: secret `secret`, whose base64 encoding is `c2VjcmV0`,
checked with the context value `0`. -/
theorem basicAuthFunc_accepts_iff_encoded_witness :
    ("secret" : String) ≠ "" ∧
    ((∀ c : String, basicAuthFunc "secret" (0 : Nat) (some c) = Except.ok 0 ↔
      c = encodeToString "secret") ∧
    (∀ c : String, c ≠ encodeToString "secret" →
      basicAuthFunc "secret" (0 : Nat) (some c) =
        Except.error (AuthError.unauthenticated
          "invalid auth token: tokens do not match")) ∧
    basicAuthFunc "secret" (0 : Nat) none =
      Except.error (AuthError.metadataExtraction
        "could not extract token from request header")) :=
  ⟨by decide, basicAuthFunc_accepts_iff_encoded "secret" (by decide) 0⟩

/-! ### Claim theorems: Delete at concrete inputs -/

/-- C1 is violated by the code: no stored record has uid `u2`, yet
`DeleteMicroVM` drops the last element of the collection — the truncation
`s.savedSpecs = s.savedSpecs[:len(s.savedSpecs)-1]` sits outside the
matching loop and runs on every non-empty collection.  The call still
returns success. -/
theorem deleteMicroVM_missing_uid_drops_last :
    DeleteMicroVM [exSpec1] "u2" = some [] ∧ exSpec1.Uid ≠ some "u2" := by
  decide

/-- C2 counterexample: both stored records carry uid `u1`, yet deleting
`u1` leaves `[dupSpecB]` — a record with uid `u1` remains and the length
shrank by one, not by the number of matches (two): the shrink happens once,
outside the matching loop. -/
theorem deleteMicroVM_duplicate_uid_cex :
    DeleteMicroVM [exSpec1, dupSpecB] "u1" = some [dupSpecB] ∧
    exSpec1.Uid = some "u1" ∧ dupSpecB.Uid = some "u1" := by
  decide

end Safety
